import Mathlib

/-!
Verification of the rbom BOM-container decoder (src/lib.rs) against its
natural-language specification.

The Rust code is shallowly embedded: the byte buffer is a `List Nat` of byte
values, the `binary_parser::Binary` reader primitives become bounds-checked
slice operations returning `Option`, and a Rust panic (an `unwrap()` on `None`
or an out-of-range slice) is modelled as the explicit error `RunErr.crash`.
Recursion over forward-sibling links is not structurally bounded in the
source, so the traversal takes an explicit fuel parameter; fuel exhaustion is
the distinct error `RunErr.noFuel`.  Log warnings (`warn!`) are a side channel
only and are not modelled.
-/

namespace Rbom

/-- A byte buffer: the `Vec<u8>` held by `Bom.buffer`, as a list of byte
values.  Parsing primitives reduce each element mod 256, matching `u8`. -/
abbrev Bytes := List Nat

/-- Big-endian value of a byte slice (`parse_u16_be` / `parse_u32_be` on the
bytes they consume). -/
def beVal (l : Bytes) : Nat :=
  l.foldl (fun a x => a * 256 + x % 256) 0

/-- Byte at index `i` (0 when out of range; used only under bounds checks). -/
def byteAt (b : Bytes) (i : Nat) : Nat := (b.getD i 0) % 256

/-- Bounds-checked slice of `n` bytes at offset `off`: the semantics of
`Binary::get_buffer` / `Binary::parse_buffer`, which fail on an out-of-range
request (the Rust caller then panics via `unwrap()`). -/
def readBytes (b : Bytes) (off n : Nat) : Option Bytes :=
  if off + n ≤ b.length then some ((b.drop off).take n) else none

/-- Big-endian u32 read at an absolute offset (`parse_u32_be`). -/
def parseU32At (b : Bytes) (off : Nat) : Option Nat :=
  (readBytes b off 4).map beVal

/-- Big-endian u16 read at an absolute offset (`parse_u16_be`). -/
def parseU16At (b : Bytes) (off : Nat) : Option Nat :=
  (readBytes b off 2).map beVal

/-- Outcome of running code that may panic or (in the model) run out of
recursion fuel. `crash` models a Rust panic. -/
inductive RunErr where
  | crash
  | noFuel
deriving DecidableEq, Repr

/-- Result of a possibly-crashing computation. -/
abbrev Res (R : Type) := Except RunErr R

/-- Sequencing of possibly-crashing computations (error propagation). -/
def resBind {A B : Type} : Res A → (A → Res B) → Res B
  | .error e, _ => .error e
  | .ok a, k => k a

/-- Mapping over a possibly-crashing computation. -/
def resMap {A B : Type} (g : A → B) : Res A → Res B
  | .error e => .error e
  | .ok a => .ok (g a)

instance {E A : Type} [DecidableEq E] [DecidableEq A] : DecidableEq (Except E A)
  | .error a, .error b =>
    if h : a = b then .isTrue (congrArg Except.error h)
    else .isFalse (fun hc => h (by cases hc; rfl))
  | .error _, .ok _ => .isFalse (fun hc => Except.noConfusion hc)
  | .ok _, .error _ => .isFalse (fun hc => Except.noConfusion hc)
  | .ok a, .ok b =>
    if h : a = b then .isTrue (congrArg Except.ok h)
    else .isFalse (fun hc => h (by cases hc; rfl))

/-- The `Pointer` struct: an `(address, length)` byte range, parsed
big-endian in that field order (`Pointer::from`). -/
structure Pointer where
  address : Nat
  length : Nat
deriving DecidableEq, Repr

/-- The `Header` struct: fixed 32-byte file header (`Header::from`). -/
structure Header where
  signature : Bytes
  version : Nat
  number_of_blocks : Nat
  index_offset : Nat
  index_length : Nat
  vars_offset : Nat
  vars_length : Nat
deriving DecidableEq, Repr

/-- `Header::from`: 8 signature bytes then six big-endian u32 fields; fails
(panic in Rust) when fewer than 32 bytes are available. -/
def parseHeader (b : Bytes) : Option Header :=
  if 32 ≤ b.length then
    some { signature := b.take 8
           version := beVal ((b.drop 8).take 4)
           number_of_blocks := beVal ((b.drop 12).take 4)
           index_offset := beVal ((b.drop 16).take 4)
           index_length := beVal ((b.drop 20).take 4)
           vars_offset := beVal ((b.drop 24).take 4)
           vars_length := beVal ((b.drop 28).take 4) }
  else none

/-- The `Tree` struct: a tree root record (`Tree::from`): 4 tag bytes,
u32 version, u32 child block index, u32 block size, u32 path count, u8.
`Tree::from(&buffer[addr..])` panics when `addr + 21 > buffer.len()`. -/
structure Tree where
  tree : Bytes
  version : Nat
  child : Nat
  block_size : Nat
  path_count : Nat
  unknown : Nat
deriving DecidableEq, Repr

/-- `Tree::from` at an absolute buffer offset. -/
def parseTree (b : Bytes) (off : Nat) : Option Tree :=
  if off + 21 ≤ b.length then
    some { tree := (b.drop off).take 4
           version := beVal ((b.drop (off + 4)).take 4)
           child := beVal ((b.drop (off + 8)).take 4)
           block_size := beVal ((b.drop (off + 12)).take 4)
           path_count := beVal ((b.drop (off + 16)).take 4)
           unknown := byteAt b (off + 20) }
  else none

/-- The `TreeEntry` struct: a 12-byte tree node header (`TreeEntry::from`):
u16 is_leaf, u16 count, u32 forward sibling index, u32 backward sibling
index, all big-endian. -/
structure TreeEntry where
  is_leaf : Nat
  count : Nat
  forward : Nat
  backward : Nat
deriving DecidableEq, Repr

/-- `TreeEntry::from` on the 12 bytes at an absolute buffer offset
(`bin.parse_buffer(12)` then field-by-field parsing); fails (panic) when
fewer than 12 bytes remain. -/
def parseTreeEntry (b : Bytes) (off : Nat) : Option TreeEntry :=
  if off + 12 ≤ b.length then
    some { is_leaf := beVal ((b.drop off).take 2)
           count := beVal ((b.drop (off + 2)).take 2)
           forward := beVal ((b.drop (off + 4)).take 4)
           backward := beVal ((b.drop (off + 8)).take 4) }
  else none

/-- The leaf loop of `Bom::reduce_tree` (lines 201-222): `n` remaining
key/value index pairs read at absolute offset `off` (8 bytes each:
u32 value index then u32 key index, `TreeEntryIndices::from`).  A pair whose
key or value block index does not resolve, or resolves to a zero-length
block, is skipped (the code warns and continues); otherwise `reduce` is
applied to the two raw byte spans (panic when a span is out of range). -/
def leafFold {R : Type} (ptrs : List Pointer) (buf : Bytes)
    (reduce : R → Bytes → Bytes → R) : Nat → Nat → R → Res R
  | _, 0, acc => .ok acc
  | off, n + 1, acc =>
    match parseU32At buf off, parseU32At buf (off + 4) with
    | some value_index, some key_index =>
      match ptrs.get? key_index, ptrs.get? value_index with
      | some key_ptr, some value_ptr =>
        if 0 < key_ptr.length ∧ 0 < value_ptr.length then
          match readBytes buf key_ptr.address key_ptr.length,
                readBytes buf value_ptr.address value_ptr.length with
          | some kb, some vb => leafFold ptrs buf reduce (off + 8) n (reduce acc kb vb)
          | _, _ => .error .crash
        else leafFold ptrs buf reduce (off + 8) n acc
      | _, _ => leafFold ptrs buf reduce (off + 8) n acc
    | _, _ => .error .crash

/-- `Bom::reduce_tree` (lines 188-242), on the container's pointer table and
buffer.  Resolve the node's block (`self.pointer(i).unwrap()`: panic on an
unresolvable index), parse the 12-byte node header, then: leaf → fold the
`count` pairs; non-leaf with `count == 0` → read the child index at
`address + length` and recurse; non-leaf with `count != 0` → warn only.
Afterwards, a nonzero `forward` link is recursed into with the current
accumulator; a zero link ends the chain and the accumulator is returned. -/
def reduceTreeCore {R : Type} (ptrs : List Pointer) (buf : Bytes)
    (reduce : R → Bytes → Bytes → R) : Nat → Nat → R → Res R
  | 0, _, _ => .error .noFuel
  | fuel + 1, pointer_index, initial_value =>
    match ptrs.get? pointer_index with
    | none => .error .crash
    | some pointer =>
      match parseTreeEntry buf pointer.address with
      | none => .error .crash
      | some entry =>
        resBind
          (if 0 < entry.is_leaf then
            leafFold ptrs buf reduce (pointer.address + 12) entry.count initial_value
          else if entry.count = 0 then
            match parseU32At buf (pointer.address + pointer.length) with
            | none => .error .crash
            | some index => reduceTreeCore ptrs buf reduce fuel index initial_value
          else
            .ok initial_value)
          (fun current_value =>
            if entry.forward ≠ 0 then
              reduceTreeCore ptrs buf reduce fuel entry.forward current_value
            else .ok current_value)

/-- The guard of the leaf-pair match in `reduce_tree` line 208-209: both
indices resolve and both blocks have nonzero length. -/
def pairUsable (ptrs : List Pointer) (value_index key_index : Nat) : Bool :=
  match ptrs.get? key_index, ptrs.get? value_index with
  | some key_ptr, some value_ptr => decide (0 < key_ptr.length ∧ 0 < value_ptr.length)
  | _, _ => false

/-- The `Var` struct: one variable-directory entry (`Var::from`): u32 block
index, u8 name length, then that many name bytes.  The name is modelled as
its raw bytes (the Rust code converts them to a `String`). -/
structure Var where
  index : Nat
  length : Nat
  name : Bytes
deriving DecidableEq, Repr

/-- `Var::from` on a window of bytes: u32 index at 0, u8 length at 4, then
`length` name bytes; fails (panic) when the window is too short. -/
def parseVar (w : Bytes) : Option Var :=
  if 5 ≤ w.length ∧ 5 + byteAt w 4 ≤ w.length then
    some { index := beVal (w.take 4)
           length := byteAt w 4
           name := (w.drop 5).take (byteAt w 4) }
  else none

/-- The variable directory: a name-to-index map with at most one binding per
name, as maintained by the Rust `HashMap<String, u32>`. -/
abbrev VarMap := List (Bytes × Nat)

/-- `HashMap::insert`: replaces any existing binding of the key (last write
wins). -/
def insertVar (m : VarMap) (k : Bytes) (v : Nat) : VarMap :=
  m.filter (fun p => decide (p.1 ≠ k)) ++ [(k, v)]

/-- `HashMap::get`: the value bound to the key, if any. -/
def lookupVar (m : VarMap) (k : Bytes) : Option Nat :=
  (m.find? (fun p => decide (p.1 = k))).map (fun p => p.2)

/-- The loop of `Bom::parse_vars` (lines 171-176): `c` remaining entries,
`pointer` the cumulative size of the entries already read.  Each entry is
parsed out of the fixed 1024-byte window the code requests at
`bin.position() + pointer` (the reader position is 4, just past the u32
count), and `pointer` advances by `var.length + 5`. -/
def parseVarsLoop (bytes : Bytes) : Nat → Nat → VarMap → Option VarMap
  | 0, _, m => some m
  | c + 1, pointer, m =>
    match readBytes bytes (4 + pointer) 1024 with
    | none => none
    | some w =>
      match parseVar w with
      | none => none
      | some var =>
        parseVarsLoop bytes c (pointer + (var.length + 5)) (insertVar m var.name var.index)

/-- `Bom::parse_vars` (lines 167-178): u32 count, then the sequential entry
loop building the name-to-index map. -/
def parse_vars (bytes : Bytes) : Option VarMap :=
  match parseU32At bytes 0 with
  | none => none
  | some var_count => parseVarsLoop bytes var_count 0 []

/-- Specification-side decode of the variable directory (from the spec words
for claim C8): the list of `c` entries, entry `i` starting at
4 + (sum over the preceding entries of 5 + name_length), with the same
per-entry shape and window as the code.  Separates decoding from
map-building so the code can be proved equal to decode-then-fold. -/
def decodeVarsSeq (bytes : Bytes) : Nat → Nat → Option (List Var)
  | 0, _ => some []
  | c + 1, pointer =>
    match readBytes bytes (4 + pointer) 1024 with
    | none => none
    | some w =>
      match parseVar w with
      | none => none
      | some var => (decodeVarsSeq bytes c (pointer + (var.length + 5))).map (var :: ·)

/-- Specification-side variable-directory parse: read the count, decode that
many entries sequentially, then build the map by inserting each entry in
order (so the last duplicate wins). -/
def specParseVars (bytes : Bytes) : Option VarMap :=
  match parseU32At bytes 0 with
  | none => none
  | some c =>
    (decodeVarsSeq bytes c 0).map
      (fun l => l.foldl (fun m v => insertVar m v.name v.index) [])

/-- The loop of `Bom::parse_pointers` (lines 160-163): `c` remaining 8-byte
`(address, length)` pairs read at absolute offset `off` of the slice. -/
def readPtrs (bytes : Bytes) : Nat → Nat → Option (List Pointer)
  | 0, _ => some []
  | c + 1, off =>
    match parseU32At bytes off, parseU32At bytes (off + 4) with
    | some a, some l => (readPtrs bytes c (off + 8)).map (fun rest => ⟨a, l⟩ :: rest)
    | _, _ => none

/-- `Bom::parse_pointers` (lines 156-165): u32 count then `count` pairs of
big-endian u32 address and u32 length, read from the start of the given
slice. -/
def parse_pointers (bytes : Bytes) : Option (List Pointer) :=
  match parseU32At bytes 0 with
  | none => none
  | some pointer_count => readPtrs bytes pointer_count 4

/-- The `Bom` struct: the loaded buffer and the three parsed tables. -/
structure Bom where
  buffer : Bytes
  header : Header
  pointers : List Pointer
  free_pointers : List Pointer
  vars : VarMap
deriving DecidableEq, Repr

/-- `Bom::new` (lines 137-150): parse the header, the block table at
`index_offset`, the free-block table at `index_offset + 4 + pointers.len()*8`,
and the variable directory at `vars_offset`.  Each Rust slice `&buffer[o..]`
panics when `o > buffer.len()`; all failures are modelled as `none` (the
container is not constructed). -/
def Bom.new (buffer : Bytes) : Option Bom :=
  match parseHeader buffer with
  | none => none
  | some header =>
    if header.index_offset ≤ buffer.length then
      match parse_pointers (buffer.drop header.index_offset) with
      | none => none
      | some pointers =>
        if header.index_offset + 4 + pointers.length * 8 ≤ buffer.length then
          match parse_pointers (buffer.drop (header.index_offset + 4 + pointers.length * 8)) with
          | none => none
          | some free_pointers =>
            if header.vars_offset ≤ buffer.length then
              match parse_vars (buffer.drop header.vars_offset) with
              | none => none
              | some vs =>
                some { buffer := buffer, header := header, pointers := pointers,
                       free_pointers := free_pointers, vars := vs }
            else none
        else none
    else none

/-- `Bom::pointer` (lines 180-182): bounds-checked lookup in the block
table. -/
def Bom.pointer (bom : Bom) (index : Nat) : Option Pointer :=
  bom.pointers.get? index

/-- `Bom::pointer_for_var` (lines 184-186): variable lookup composed with
block lookup (`None` both when the name is absent and when its index is out
of range). -/
def Bom.pointer_for_var (bom : Bom) (name : Bytes) : Option Pointer :=
  (lookupVar bom.vars name).bind (fun index => bom.pointer index)

/-- `Bom::reduce_tree` as a method: the traversal over the container's own
pointer table and buffer. -/
def Bom.reduce_tree {R : Type} (bom : Bom) (reduce : R → Bytes → Bytes → R)
    (fuel pointer_index : Nat) (initial_value : R) : Res R :=
  reduceTreeCore bom.pointers bom.buffer reduce fuel pointer_index initial_value

/-- `Bom::map_tree` (lines 257-265): reduce with an empty vector as initial
value, pushing the image of each pair. -/
def Bom.map_tree {V : Type} (bom : Bom) (map : Bytes → Bytes → V)
    (fuel pointer_index : Nat) : Res (List V) :=
  bom.reduce_tree (fun acc key value => acc ++ [map key value]) fuel pointer_index []

/-- The error payload of `Bom::reduce_tree_for_variable`:
`Err(format!("Variable not found: ...", var))`. -/
inductive LookupErr where
  | notFound (var : Bytes)
deriving DecidableEq, Repr

/-- `Bom::reduce_tree_for_variable` (lines 244-255): resolve the variable to
its block; on success parse the tree root there and reduce from its child
index; when the variable (or its block) is absent return the explicit
not-found error. -/
def Bom.reduce_tree_for_variable {R : Type} (bom : Bom) (var : Bytes)
    (fuel : Nat) (initial_value : R) (reduce : R → Bytes → Bytes → R) :
    Res (Except LookupErr R) :=
  match bom.pointer_for_var var with
  | some pointer =>
    match parseTree bom.buffer pointer.address with
    | none => .error .crash
    | some tree => resMap Except.ok (bom.reduce_tree reduce fuel tree.child initial_value)
  | none => .ok (Except.error (.notFound var))

/-- `Bom::map_tree_for_variable` (lines 267-274): `pointer_for_var(var)
.unwrap()` — a missing variable is a panic, not an error value — then parse
the tree root and map from its child index. -/
def Bom.map_tree_for_variable {V : Type} (bom : Bom) (var : Bytes)
    (map : Bytes → Bytes → V) (fuel : Nat) : Res (List V) :=
  match bom.pointer_for_var var with
  | none => .error .crash
  | some pointer =>
    match parseTree bom.buffer pointer.address with
    | none => .error .crash
    | some tree => bom.map_tree map fuel tree.child

/-- Specification-side linearization of a leaf (for claims C1 and C7): the
list of resolved `(key_bytes, value_bytes)` pairs of the node's `n` entries,
in entry order, skipping exactly the pairs the code's guard skips, and
crashing exactly where the code crashes. -/
def leafPairs (ptrs : List Pointer) (buf : Bytes) : Nat → Nat → Res (List (Bytes × Bytes))
  | _, 0 => .ok []
  | off, n + 1 =>
    match parseU32At buf off, parseU32At buf (off + 4) with
    | some value_index, some key_index =>
      match ptrs.get? key_index, ptrs.get? value_index with
      | some key_ptr, some value_ptr =>
        if 0 < key_ptr.length ∧ 0 < value_ptr.length then
          match readBytes buf key_ptr.address key_ptr.length,
                readBytes buf value_ptr.address value_ptr.length with
          | some kb, some vb =>
            resBind (leafPairs ptrs buf (off + 8) n) (fun l => .ok ((kb, vb) :: l))
          | _, _ => .error .crash
        else leafPairs ptrs buf (off + 8) n
      | _, _ => leafPairs ptrs buf (off + 8) n
    | _, _ => .error .crash

/-- Specification-side linearization of the tree (for claims C1 and C7): the
left-to-right, depth-first-then-sibling sequence of resolved key/value byte
pairs — a node's own pairs (leaf) or its child subtree's pairs (internal),
followed by the pairs of its forward-sibling chain. -/
def collectTree (ptrs : List Pointer) (buf : Bytes) : Nat → Nat → Res (List (Bytes × Bytes))
  | 0, _ => .error .noFuel
  | fuel + 1, pointer_index =>
    match ptrs.get? pointer_index with
    | none => .error .crash
    | some pointer =>
      match parseTreeEntry buf pointer.address with
      | none => .error .crash
      | some entry =>
        resBind
          (if 0 < entry.is_leaf then
            leafPairs ptrs buf (pointer.address + 12) entry.count
          else if entry.count = 0 then
            match parseU32At buf (pointer.address + pointer.length) with
            | none => .error .crash
            | some index => collectTree ptrs buf fuel index
          else
            .ok [])
          (fun own =>
            if entry.forward ≠ 0 then
              resBind (collectTree ptrs buf fuel entry.forward) (fun sib => .ok (own ++ sib))
            else .ok own)

/-- Byte regions `(offset, size)` whose values the leaf loop consumes beyond
the pair-index words themselves: the key and value spans of each pair the
guard accepts (for claim C10). -/
def leafReads (ptrs : List Pointer) (buf : Bytes) : Nat → Nat → Res (List (Nat × Nat))
  | _, 0 => .ok []
  | off, n + 1 =>
    match parseU32At buf off, parseU32At buf (off + 4) with
    | some value_index, some key_index =>
      match ptrs.get? key_index, ptrs.get? value_index with
      | some key_ptr, some value_ptr =>
        if 0 < key_ptr.length ∧ 0 < value_ptr.length then
          match readBytes buf key_ptr.address key_ptr.length,
                readBytes buf value_ptr.address value_ptr.length with
          | some _, some _ =>
            resBind (leafReads ptrs buf (off + 8) n)
              (fun rs => .ok ((key_ptr.address, key_ptr.length) ::
                              (value_ptr.address, value_ptr.length) :: rs))
          | _, _ => .error .crash
        else leafReads ptrs buf (off + 8) n
      | _, _ => leafReads ptrs buf (off + 8) n
    | _, _ => .error .crash

/-- Byte regions `(offset, size)` whose values the tree traversal consumes
(for claim C10): for each visited node only the first 8 bytes of its 12-byte
header (is_leaf, count and forward — never the backward field at bytes
8..12), the leaf pair-index words, the child-index word of an internal node,
and the key/value spans handed to the reducer.  Crashes exactly where the
traversal crashes (bounds checks depend only on the buffer length). -/
def treeReads (ptrs : List Pointer) (buf : Bytes) : Nat → Nat → Res (List (Nat × Nat))
  | 0, _ => .error .noFuel
  | fuel + 1, pointer_index =>
    match ptrs.get? pointer_index with
    | none => .error .crash
    | some pointer =>
      match parseTreeEntry buf pointer.address with
      | none => .error .crash
      | some entry =>
        resBind
          (if 0 < entry.is_leaf then
            resBind (leafReads ptrs buf (pointer.address + 12) entry.count)
              (fun rs => .ok ((pointer.address + 12, 8 * entry.count) :: rs))
          else if entry.count = 0 then
            match parseU32At buf (pointer.address + pointer.length) with
            | none => .error .crash
            | some index =>
              resBind (treeReads ptrs buf fuel index)
                (fun rs => .ok ((pointer.address + pointer.length, 4) :: rs))
          else
            .ok [])
          (fun own =>
            resBind
              (if entry.forward ≠ 0 then treeReads ptrs buf fuel entry.forward else .ok [])
              (fun sib => .ok ((pointer.address, 8) :: (own ++ sib))))

/-- Two buffers agree on every byte offset covered by the given regions. -/
def agreeOn (b1 b2 : Bytes) (rs : List (Nat × Nat)) : Prop :=
  ∀ r ∈ rs, ∀ j, j < r.2 → b1.get? (r.1 + j) = b2.get? (r.1 + j)

instance (b1 b2 : Bytes) (rs : List (Nat × Nat)) : Decidable (agreeOn b1 b2 rs) := by
  unfold agreeOn; infer_instance

/-- A placeholder header for containers assembled directly in proofs (the
traversal never consults the header). -/
def hdr0 : Header := ⟨[], 0, 0, 0, 0, 0, 0⟩

/-- A 52-byte BOM file whose single block descriptor `(9999, 10)` lies far
outside the buffer: header (index_offset 32, vars_offset 48), block table
with one entry, empty free table, empty variable directory. -/
def cbufC5 : Bytes :=
  [66, 79, 77, 83, 116, 111, 114, 101,
   0, 0, 0, 1, 0, 0, 0, 1, 0, 0, 0, 32, 0, 0, 0, 12, 0, 0, 0, 48, 0, 0, 0, 4,
   0, 0, 0, 1, 0, 0, 39, 15, 0, 0, 0, 10,
   0, 0, 0, 0,
   0, 0, 0, 0]

/-- The container `Bom::new` builds from `cbufC5`. -/
def bomC5 : Bom :=
  { buffer := cbufC5
    header := ⟨[66, 79, 77, 83, 116, 111, 114, 101], 1, 1, 32, 12, 48, 4⟩
    pointers := [⟨9999, 10⟩]
    free_pointers := []
    vars := [] }

/-- A 52-byte BOM file with `index_offset` 32 and `index_length` 4: the main
block table is empty, and the free-block table (count 1, one pair) occupies
bytes 36..48 — past `index_offset + index_length = 36`. -/
def cbufC9a : Bytes :=
  [66, 79, 77, 83, 116, 111, 114, 101,
   0, 0, 0, 1, 0, 0, 0, 0, 0, 0, 0, 32, 0, 0, 0, 4, 0, 0, 0, 48, 0, 0, 0, 4,
   0, 0, 0, 0,
   0, 0, 0, 1, 0, 0, 0, 7, 0, 0, 0, 1,
   0, 0, 0, 0]

/-- `cbufC9a` with only byte 47 changed (the low byte of the free block's
length, at an offset past `index_offset + index_length`). -/
def cbufC9b : Bytes :=
  [66, 79, 77, 83, 116, 111, 114, 101,
   0, 0, 0, 1, 0, 0, 0, 0, 0, 0, 0, 32, 0, 0, 0, 4, 0, 0, 0, 48, 0, 0, 0, 4,
   0, 0, 0, 0,
   0, 0, 0, 1, 0, 0, 0, 7, 0, 0, 0, 2,
   0, 0, 0, 0]

/-- The container `Bom::new` builds from `cbufC9a`. -/
def bomC9a : Bom :=
  { buffer := cbufC9a
    header := ⟨[66, 79, 77, 83, 116, 111, 114, 101], 1, 0, 32, 4, 48, 4⟩
    pointers := []
    free_pointers := [⟨7, 1⟩]
    vars := [] }

/-- Pointer table for the unresolvable-child fixture: block 0 is an internal
node at offset 0 (length 12, so its child word sits at offset 12), block 2 a
well-formed empty leaf at offset 16. -/
def ptrsC3 : List Pointer := [⟨0, 12⟩, ⟨0, 1⟩, ⟨16, 12⟩]

/-- Buffer for the unresolvable-child fixture: internal node (is_leaf 0,
count 0, forward 2) at 0, child-index word 99 at 12 (no block 99 exists),
and the forward-sibling leaf (is_leaf 1, count 0) at 16. -/
def bufC3 : Bytes :=
  [0, 0, 0, 0, 0, 0, 0, 2, 0, 0, 0, 0,
   0, 0, 0, 99,
   0, 1, 0, 0, 0, 0, 0, 0, 0, 0, 0, 0]

/-- Container with an internal node whose child index 99 is unresolvable but
whose forward sibling (block 2) is a valid leaf. -/
def bomC3 : Bom := ⟨bufC3, hdr0, ptrsC3, [], []⟩

/-- A container with an empty variable directory (for the missing-variable
claim). -/
def bomC4 : Bom := ⟨[], hdr0, [], [], []⟩

/-- Pointer table for the corrupt-leaf-pair fixture: block 0 has zero length
(unusable), blocks 1 and 2 are one-byte key and value blocks. -/
def ptrsC2 : List Pointer := [⟨0, 0⟩, ⟨16, 1⟩, ⟨17, 1⟩]

/-- Leaf-entry area for the corrupt-leaf-pair fixture: pair 0 references the
zero-length block 0 for both key and value (skipped), pair 1 references
value block 2 and key block 1; bytes 16 and 17 are the key and value data. -/
def bufC2 : Bytes :=
  [0, 0, 0, 0, 0, 0, 0, 0,
   0, 0, 0, 2, 0, 0, 0, 1,
   5, 6]

/-- Pointer table for the guard-passing out-of-range-span fixture: block 0
is a leaf node at offset 0; blocks 1 and 2 both describe the range
`(100, 4)` — resolvable, nonzero length, but lying entirely outside the
20-byte buffer. -/
def ptrsC2b : List Pointer := [⟨0, 12⟩, ⟨100, 4⟩, ⟨100, 4⟩]

/-- Buffer for the guard-passing out-of-range-span fixture: a leaf node
(is_leaf 1, count 1) whose single pair references value block 2 and key
block 1. -/
def bufC2b : Bytes :=
  [0, 1, 0, 1, 0, 0, 0, 0, 0, 0, 0, 0,
   0, 0, 0, 2, 0, 0, 0, 1]

/-- Container over `bufC2b`. -/
def bomC2b : Bom := ⟨bufC2b, hdr0, ptrsC2b, [], []⟩

/-- Pointer table for the malformed-internal-node fixture. -/
def ptrsC6 : List Pointer := [⟨0, 12⟩, ⟨0, 12⟩, ⟨12, 12⟩]

/-- Buffer for the malformed-internal-node fixture: node 0 is a non-leaf
with count 5 (malformed) and forward sibling 2; block 2 is an empty leaf. -/
def bufC6 : Bytes :=
  [0, 0, 0, 5, 0, 0, 0, 2, 0, 0, 0, 0,
   0, 1, 0, 0, 0, 0, 0, 0, 0, 0, 0, 0]

/-- Container with a malformed internal node at block 0. -/
def bomC6 : Bom := ⟨bufC6, hdr0, ptrsC6, [], []⟩

/-- Pointer table for the aliased-backward fixture: block 0 is an internal
node at offset 0 whose block length is 8, so the child-index word the
traversal reads at `address + length = 8` is exactly the node's own backward
field (bytes 8..12); blocks 1 and 2 are leaves, blocks 3 and 4 one-byte
value and key blocks. -/
def ptrsC10 : List Pointer := [⟨0, 8⟩, ⟨12, 12⟩, ⟨32, 12⟩, ⟨44, 1⟩, ⟨45, 1⟩]

/-- First buffer for the aliased-backward fixture: root internal node whose
backward field (= aliased child word) is 1; block 1 is a leaf with one
resolvable pair, block 2 a leaf with none. -/
def buf1C10 : Bytes :=
  [0, 0, 0, 0, 0, 0, 0, 0, 0, 0, 0, 1,
   0, 1, 0, 1, 0, 0, 0, 0, 0, 0, 0, 0,
   0, 0, 0, 3, 0, 0, 0, 4,
   0, 1, 0, 0, 0, 0, 0, 0, 0, 0, 0, 0,
   7, 9]

/-- `buf1C10` with only the root node's 4 backward-field bytes (offsets
8..11) changed so the aliased child word selects the empty leaf. -/
def buf2C10 : Bytes :=
  [0, 0, 0, 0, 0, 0, 0, 0, 0, 0, 0, 2,
   0, 1, 0, 1, 0, 0, 0, 0, 0, 0, 0, 0,
   0, 0, 0, 3, 0, 0, 0, 4,
   0, 1, 0, 0, 0, 0, 0, 0, 0, 0, 0, 0,
   7, 9]

/-- Container over `buf1C10`. -/
def bomC10a : Bom := ⟨buf1C10, hdr0, ptrsC10, [], []⟩

/-- Container over `buf2C10`. -/
def bomC10b : Bom := ⟨buf2C10, hdr0, ptrsC10, [], []⟩

/-- Pointer table for the non-aliased backward witness: one empty leaf
block of length 12. -/
def ptrsW10 : List Pointer := [⟨0, 12⟩]

/-- A single empty leaf node. -/
def bufW10a : Bytes := [0, 1, 0, 0, 0, 0, 0, 0, 0, 0, 0, 0]

/-- `bufW10a` with only a backward-field byte (offset 11) changed. -/
def bufW10b : Bytes := [0, 1, 0, 0, 0, 0, 0, 0, 0, 0, 0, 9]

/-- A variable directory region with two entries of the same one-byte name
(65), indices 5 then 9, padded so each entry's fixed 1024-byte read window
stays inside the buffer. -/
def bytesC8 : Bytes :=
  [0, 0, 0, 2, 0, 0, 0, 5, 1, 65, 0, 0, 0, 9, 1, 65] ++ List.replicate 1020 0

/-- The entry list `decodeVarsSeq` yields on `bytesC8`. -/
def varsListC8 : List Var := [⟨5, 1, [65]⟩, ⟨9, 1, [65]⟩]

@[simp]
lemma resBind_ok {A B : Type} (a : A) (k : A → Res B) : resBind (.ok a) k = k a := rfl

@[simp]
lemma resBind_error {A B : Type} (e : RunErr) (k : A → Res B) :
    resBind (.error e) k = .error e := rfl

@[simp]
lemma resMap_ok {A B : Type} (g : A → B) (a : A) : resMap g (.ok a) = .ok (g a) := rfl

@[simp]
lemma resMap_error {A B : Type} (g : A → B) (e : RunErr) :
    resMap g (.error e) = (.error e : Res B) := rfl

/-- The leaf loop folds exactly the pair list `leafPairs` linearizes, in
order, threading the accumulator. -/
lemma leafFold_eq_leafPairs {R : Type} (ptrs : List Pointer) (buf : Bytes)
    (f : R → Bytes → Bytes → R) (n : Nat) :
    ∀ (off : Nat) (acc : R),
      leafFold ptrs buf f off n acc
        = resMap (fun l => l.foldl (fun a p => f a p.1 p.2) acc) (leafPairs ptrs buf off n) := by
  induction n with
  | zero => intro off acc; rfl
  | succ n ih =>
    intro off acc
    cases h1 : parseU32At buf off with
    | none => simp only [leafFold, leafPairs, h1, resMap_error]
    | some value_index =>
      cases h2 : parseU32At buf (off + 4) with
      | none => simp only [leafFold, leafPairs, h1, h2, resMap_error]
      | some key_index =>
        cases hk : ptrs.get? key_index with
        | none => simp only [leafFold, leafPairs, h1, h2, hk]; exact ih (off + 8) acc
        | some kp =>
          cases hv : ptrs.get? value_index with
          | none => simp only [leafFold, leafPairs, h1, h2, hk, hv]; exact ih (off + 8) acc
          | some vp =>
            by_cases hl : 0 < kp.length ∧ 0 < vp.length
            · cases hkb : readBytes buf kp.address kp.length with
              | none =>
                simp only [leafFold, leafPairs, h1, h2, hk, hv, if_pos hl, hkb]
                cases readBytes buf vp.address vp.length <;> simp
              | some kb =>
                cases hvb : readBytes buf vp.address vp.length with
                | none =>
                  simp only [leafFold, leafPairs, h1, h2, hk, hv, if_pos hl, hkb, hvb,
                    resMap_error]
                | some vb =>
                  simp only [leafFold, leafPairs, h1, h2, hk, hv, if_pos hl, hkb, hvb]
                  rw [ih (off + 8) (f acc kb vb)]
                  cases leafPairs ptrs buf (off + 8) n with
                  | error e => rfl
                  | ok l => rfl
            · simp only [leafFold, leafPairs, h1, h2, hk, hv, if_neg hl]
              exact ih (off + 8) acc

/-- `reduce_tree` is the left fold of the combine function over the
depth-first-then-sibling linearization `collectTree`, for every fuel, root
index and initial accumulator (crashing exactly when the linearization
does). -/
lemma reduceTree_eq_collectTree {R : Type} (ptrs : List Pointer) (buf : Bytes)
    (f : R → Bytes → Bytes → R) (fuel : Nat) :
    ∀ (idx : Nat) (init : R),
      reduceTreeCore ptrs buf f fuel idx init
        = resMap (fun l => l.foldl (fun a p => f a p.1 p.2) init)
            (collectTree ptrs buf fuel idx) := by
  induction fuel with
  | zero => intro idx init; rfl
  | succ fuel ih =>
    intro idx init
    cases hp : ptrs.get? idx with
    | none => simp only [reduceTreeCore, collectTree, hp, resMap_error]
    | some ptr =>
      cases he : parseTreeEntry buf ptr.address with
      | none => simp only [reduceTreeCore, collectTree, hp, he, resMap_error]
      | some entry =>
        simp only [reduceTreeCore, collectTree, hp, he]
        by_cases hleaf : 0 < entry.is_leaf
        · simp only [if_pos hleaf, leafFold_eq_leafPairs]
          cases leafPairs ptrs buf (ptr.address + 12) entry.count with
          | error e => rfl
          | ok own =>
            simp only [resMap_ok, resBind_ok]
            by_cases hfw : entry.forward ≠ 0
            · simp only [if_pos hfw, ih]
              cases collectTree ptrs buf fuel entry.forward with
              | error e => rfl
              | ok sib => simp [List.foldl_append]
            · simp only [if_neg hfw]; rfl
        · simp only [if_neg hleaf]
          by_cases hcnt : entry.count = 0
          · simp only [if_pos hcnt]
            cases hc : parseU32At buf (ptr.address + ptr.length) with
            | none => rfl
            | some child =>
              simp only [hc]
              rw [ih child init]
              cases collectTree ptrs buf fuel child with
              | error e => rfl
              | ok own =>
                simp only [resMap_ok, resBind_ok]
                by_cases hfw : entry.forward ≠ 0
                · simp only [if_pos hfw, ih]
                  cases collectTree ptrs buf fuel entry.forward with
                  | error e => rfl
                  | ok sib => simp [List.foldl_append]
                · simp only [if_neg hfw]; rfl
          · simp only [if_neg hcnt]
            simp only [resBind_ok, resMap_ok]
            by_cases hfw : entry.forward ≠ 0
            · simp only [if_pos hfw, ih]
              cases collectTree ptrs buf fuel entry.forward with
              | error e => rfl
              | ok sib => simp
            · simp only [if_neg hfw]; rfl

/-- Folding a push function from an accumulator appends the mapped list. -/
lemma foldl_push_eq_map {A V : Type} (g : A → V) (l : List A) :
    ∀ acc : List V, l.foldl (fun a p => a ++ [g p]) acc = acc ++ l.map g := by
  induction l with
  | nil => intro acc; simp
  | cons x xs ih => intro acc; simp [ih]

/-- Folding a counter counts the list length. -/
lemma foldl_count_eq_length {A : Type} (l : List A) :
    ∀ n : Nat, l.foldl (fun a _ => a + 1) n = n + l.length := by
  induction l with
  | nil => intro n; simp
  | cons x xs ih => intro n; simp [ih]; omega

/-- A binding inserted into the variable map wins over any earlier binding
of the same name. -/
lemma lookup_insert (m : VarMap) (k : Bytes) (v : Nat) :
    lookupVar (insertVar m k v) k = some v := by
  unfold lookupVar insertVar
  rw [List.find?_append]
  have hnone :
      List.find? (fun p => decide (p.1 = k)) (m.filter (fun p => decide (p.1 ≠ k))) = none := by
    rw [List.find?_eq_none]
    intro x hx
    rcases List.mem_filter.1 hx with ⟨-, hxk⟩
    simp only [decide_eq_true_eq] at hxk ⊢
    exact hxk
  rw [hnone]
  simp [List.find?]

/-- The variable-directory loop equals decoding the remaining entries and
folding the inserts over them. -/
lemma parseVarsLoop_eq (bytes : Bytes) :
    ∀ (c pointer : Nat) (m : VarMap),
      parseVarsLoop bytes c pointer m
        = (decodeVarsSeq bytes c pointer).map
            (fun l => l.foldl (fun m' v => insertVar m' v.name v.index) m) := by
  intro c
  induction c with
  | zero => intro p m; rfl
  | succ c ih =>
    intro p m
    cases hw : readBytes bytes (4 + p) 1024 with
    | none => simp only [parseVarsLoop, decodeVarsSeq, hw]; rfl
    | some w =>
      cases hv : parseVar w with
      | none => simp only [parseVarsLoop, decodeVarsSeq, hw, hv]; rfl
      | some var =>
        simp only [parseVarsLoop, decodeVarsSeq, hw, hv]
        rw [ih]
        cases decodeVarsSeq bytes c (p + (var.length + 5)) with
        | none => rfl
        | some l => rfl

/-- A successful sequential decode yields exactly the declared number of
entries. -/
lemma decodeVarsSeq_length (bytes : Bytes) :
    ∀ (c p : Nat) (l : List Var), decodeVarsSeq bytes c p = some l → l.length = c := by
  intro c
  induction c with
  | zero =>
    intro p l h
    simp only [decodeVarsSeq] at h
    cases h
    rfl
  | succ c ih =>
    intro p l h
    rcases hw : readBytes bytes (4 + p) 1024 with - | w
    · simp only [decodeVarsSeq, hw] at h
      exact Option.noConfusion h
    · rcases hv : parseVar w with - | var
      · simp only [decodeVarsSeq, hw, hv] at h
        exact Option.noConfusion h
      · rcases hd : decodeVarsSeq bytes c (p + (var.length + 5)) with - | l'
        · simp only [decodeVarsSeq, hw, hv, hd, Option.map_none'] at h
          exact Option.noConfusion h
        · simp only [decodeVarsSeq, hw, hv, hd, Option.map_some'] at h
          cases h
          simp [ih _ _ hd]

/-- C1.  `fold_tree` (`reduce_tree`) applies the combine function exactly
once per resolvable leaf key/value pair, in the left-to-right,
depth-first-then-sibling linearization order: a node's own contribution
(leaf pairs, or its single child's subtree) is folded first, a nonzero
forward link is then recursed into with the current accumulator, a zero
forward link ends the sibling chain, and the final accumulator is returned.
Formally, the traversal is the left fold of the combine function over the
linearized pair sequence `collectTree`, for every container, fuel, root
index and initial value (and crashes exactly when the linearization
does). -/
theorem c1_reduce_is_linearized_fold {R : Type} (bom : Bom) (f : R → Bytes → Bytes → R)
    (fuel idx : Nat) (init : R) :
    bom.reduce_tree f fuel idx init
      = resMap (fun l => l.foldl (fun a p => f a p.1 p.2) init)
          (collectTree bom.pointers bom.buffer fuel idx) :=
  reduceTree_eq_collectTree bom.pointers bom.buffer f fuel idx init

/-- Counterexample to C2: in `bomC2b` the leaf's single pair passes the
guard — both block indices resolve in the table and both blocks have
nonzero length — but the referenced range `(100, 4)` lies outside the
20-byte buffer, so `bin.get_buffer(...).unwrap()` (lib.rs line 212) panics:
combine is never invoked and the enclosing fold aborts with an error
instead of returning an accumulator, contradicting the claim's "otherwise
combine is invoked with the two raw byte spans" and "the fold still returns
an accumulator value, not an error". -/
theorem c2_counterexample :
    bomC2b.pointer 1 = some ⟨100, 4⟩
    ∧ bomC2b.pointer 2 = some ⟨100, 4⟩
    ∧ pairUsable ptrsC2b 2 1 = true
    ∧ parseTreeEntry bufC2b 0 = some ⟨1, 1, 0, 0⟩
    ∧ bufC2b.length = 20
    ∧ bufC2b.length < 100 + 4
    ∧ bomC2b.reduce_tree (fun (n : Nat) _ _ => n + 1) 1 0 0 = .error .crash := by
  decide

/-- C2 as amended.  During a leaf walk, a pair whose key or value block
index is unresolvable or whose resolved block has zero length is skipped
and the walk continues with the remaining pairs and an unchanged
accumulator (warnings are a log side channel, not modelled); a pair passing
that guard has the combine function invoked with the two raw byte spans
only when both spans lie inside the buffer — when either resolved range
lies outside the buffer the code panics (`get_buffer(...).unwrap()`,
modelled as `RunErr.crash`), aborting the entire fold. -/
theorem c2_leaf_pair_skip_or_combine {R : Type} (ptrs : List Pointer) (buf : Bytes)
    (f : R → Bytes → Bytes → R) (off n : Nat) (acc : R) (value_index key_index : Nat)
    (h1 : parseU32At buf off = some value_index)
    (h2 : parseU32At buf (off + 4) = some key_index) :
    (pairUsable ptrs value_index key_index = false →
      leafFold ptrs buf f off (n + 1) acc = leafFold ptrs buf f (off + 8) n acc)
    ∧ (∀ (key_ptr value_ptr : Pointer) (kb vb : Bytes),
        ptrs.get? key_index = some key_ptr → ptrs.get? value_index = some value_ptr →
        0 < key_ptr.length → 0 < value_ptr.length →
        readBytes buf key_ptr.address key_ptr.length = some kb →
        readBytes buf value_ptr.address value_ptr.length = some vb →
        leafFold ptrs buf f off (n + 1) acc = leafFold ptrs buf f (off + 8) n (f acc kb vb))
    ∧ (∀ (key_ptr value_ptr : Pointer),
        ptrs.get? key_index = some key_ptr → ptrs.get? value_index = some value_ptr →
        0 < key_ptr.length → 0 < value_ptr.length →
        (readBytes buf key_ptr.address key_ptr.length = none
          ∨ readBytes buf value_ptr.address value_ptr.length = none) →
        leafFold ptrs buf f off (n + 1) acc = .error .crash) := by
  refine ⟨?_, ?_, ?_⟩
  · intro hcorr
    cases hk : ptrs.get? key_index with
    | none => simp only [leafFold, h1, h2, hk]
    | some kp =>
      cases hv : ptrs.get? value_index with
      | none => simp only [leafFold, h1, h2, hk, hv]
      | some vp =>
        have hl : ¬(0 < kp.length ∧ 0 < vp.length) := by
          unfold pairUsable at hcorr
          rw [hk, hv] at hcorr
          simpa using hcorr
        simp only [leafFold, h1, h2, hk, hv, if_neg hl]
  · intro kp vp kb vb hk hv hkl hvl hkb hvb
    simp only [leafFold, h1, h2, hk, hv, if_pos (And.intro hkl hvl), hkb, hvb]
  · intro kp vp hk hv hkl hvl hor
    rcases hor with hnone | hnone
    · simp only [leafFold, h1, h2, hk, hv, if_pos (And.intro hkl hvl), hnone]
    · simp only [leafFold, h1, h2, hk, hv, if_pos (And.intro hkl hvl), hnone]
      cases readBytes buf kp.address kp.length <;> rfl

/-- Witness for the amended C2, exercising all three behaviors concretely:
on `bufC2` the first pair (zero-length blocks) is skipped and the two-pair
fold still returns an accumulator, the second (valid) pair is combined; on
`bufC2b` a guard-passing pair whose span lies outside the buffer crashes
the fold. -/
theorem c2_witness :
    (pairUsable ptrsC2 0 0 = false
      ∧ leafFold ptrsC2 bufC2 (fun (n : Nat) _ _ => n + 1) 0 2 0
          = leafFold ptrsC2 bufC2 (fun (n : Nat) _ _ => n + 1) 8 1 0)
    ∧ leafFold ptrsC2 bufC2 (fun (n : Nat) _ _ => n + 1) 8 1 0
        = leafFold ptrsC2 bufC2 (fun (n : Nat) _ _ => n + 1) 16 0 1
    ∧ leafFold ptrsC2b bufC2b (fun (n : Nat) _ _ => n + 1) 12 1 0 = .error .crash
    ∧ leafFold ptrsC2 bufC2 (fun (n : Nat) _ _ => n + 1) 0 2 0 = .ok 1 :=
  ⟨⟨by decide,
    (c2_leaf_pair_skip_or_combine ptrsC2 bufC2 (fun n _ _ => n + 1) 0 1 0 0 0
       (by decide) (by decide)).1 (by decide)⟩,
   (c2_leaf_pair_skip_or_combine ptrsC2 bufC2 (fun n _ _ => n + 1) 8 0 0 2 1
      (by decide) (by decide)).2.1 ⟨16, 1⟩ ⟨17, 1⟩ [5] [6]
      (by decide) (by decide) (by decide) (by decide) (by decide) (by decide),
   (c2_leaf_pair_skip_or_combine ptrsC2b bufC2b (fun n _ _ => n + 1) 12 0 0 2 1
      (by decide) (by decide)).2.2 ⟨100, 4⟩ ⟨100, 4⟩
      (by decide) (by decide) (by decide) (by decide) (Or.inl (by decide)),
   by decide⟩

/-- Counterexample to C3: in `bomC3`, block 0 is an internal node whose
child-index word is the unresolvable index 99 while its forward link points
to the valid empty leaf at block 2.  The claim says the unresolvable index
aborts only that sub-walk and the enclosing traversal continues; the code
instead panics (`self.pointer(i).unwrap()`), aborting the entire
traversal — the sibling is never reached even though traversing it alone
succeeds. -/
theorem c3_counterexample :
    bomC3.pointer 99 = none
    ∧ parseTreeEntry bufC3 0 = some ⟨0, 0, 2, 0⟩
    ∧ parseU32At bufC3 12 = some 99
    ∧ bomC3.reduce_tree (fun (n : Nat) _ _ => n + 1) 3 0 0 = .error .crash
    ∧ bomC3.reduce_tree (fun (n : Nat) _ _ => n + 1) 3 2 0 = .ok 0 := by
  decide

/-- C3 as amended: a traversal entered at an unresolvable block index (and
likewise any child or forward recursion reaching one) panics — modelled as
`RunErr.crash` — rather than being handled as a recoverable corruption; the
per-entry tolerance applies only to leaf key/value pointers. -/
theorem c3_unresolvable_node_panics {R : Type} (bom : Bom) (f : R → Bytes → Bytes → R)
    (fuel idx : Nat) (init : R) (h : bom.pointer idx = none) :
    bom.reduce_tree f (fuel + 1) idx init = .error .crash := by
  unfold Bom.pointer at h
  simp only [Bom.reduce_tree, reduceTreeCore, h]

/-- Witness for the amended C3 at a concrete unresolvable index. -/
theorem c3_witness :
    bomC3.reduce_tree (fun (n : Nat) _ _ => n + 1) 1 99 0 = .error .crash :=
  c3_unresolvable_node_panics bomC3 (fun n _ _ => n + 1) 0 99 0 (by decide)

/-- Counterexample to C4: with an empty variable directory,
`map_tree_for_variable` panics (`pointer_for_var(var).unwrap()`) instead of
returning a not-found error; only `reduce_tree_for_variable` returns the
explicit error. -/
theorem c4_counterexample :
    lookupVar bomC4.vars [65] = none
    ∧ bomC4.map_tree_for_variable [65] (fun _ _ => (0 : Nat)) 1 = .error .crash
    ∧ bomC4.reduce_tree_for_variable [65] 1 (0 : Nat) (fun n _ _ => n)
        = .ok (.error (.notFound [65])) := by
  decide

/-- C4 as amended: for a variable name absent from the directory,
`reduce_tree_for_variable` returns the explicit not-found error, but
`map_tree_for_variable` panics (modelled as `RunErr.crash`). -/
theorem c4_missing_variable_behavior {R V : Type} (bom : Bom) (name : Bytes)
    (fuel : Nat) (init : R) (f : R → Bytes → Bytes → R) (m : Bytes → Bytes → V)
    (h : lookupVar bom.vars name = none) :
    bom.reduce_tree_for_variable name fuel init f = .ok (.error (.notFound name))
    ∧ bom.map_tree_for_variable name m fuel = .error .crash := by
  have hp : bom.pointer_for_var name = none := by
    simp [Bom.pointer_for_var, h]
  exact ⟨by simp only [Bom.reduce_tree_for_variable, hp],
         by simp only [Bom.map_tree_for_variable, hp]⟩

/-- Witness for the amended C4 on a concrete container with no variables. -/
theorem c4_witness :
    bomC4.reduce_tree_for_variable [65] 1 (0 : Nat) (fun n _ _ => n)
        = .ok (.error (.notFound [65]))
    ∧ bomC4.map_tree_for_variable [65] (fun _ _ => (0 : Nat)) 1 = .error .crash :=
  c4_missing_variable_behavior bomC4 [65] 1 0 (fun n _ _ => n) (fun _ _ => 0) (by decide)

/-- Counterexample to C5: `Bom::new` accepts `cbufC5`, whose single block
descriptor is `(9999, 10)` — `block(0)` returns it although the range lies
far outside the 52-byte buffer, contradicting the claim that every returned
block's range lies fully inside the loaded buffer. -/
theorem c5_counterexample :
    (Bom.new cbufC5).map (fun b => b.pointer 0) = some (some ⟨9999, 10⟩)
    ∧ (Bom.new cbufC5).map (fun b => b.buffer.length) = some 52
    ∧ 52 < 9999 + 10 := by
  decide

/-- C5 as amended: `pointer(i)` is a bounds-checked lookup into the parsed
block table — `some` of the decoded descriptor exactly when
`i < block count`, `none` otherwise, and it never panics — but the returned
`(address, length)` range is taken from the file unvalidated and need not
lie inside the buffer. -/
theorem c5_bounds_checked_lookup (bom : Bom) (i : Nat) :
    (i < bom.pointers.length → ∃ p, bom.pointer i = some p)
    ∧ (bom.pointers.length ≤ i → bom.pointer i = none) := by
  constructor
  · intro h
    exact ⟨bom.pointers.get ⟨i, h⟩, by simp [Bom.pointer, List.get?_eq_get h]⟩
  · intro h
    exact List.get?_eq_none.2 h

/-- Witness for the amended C5 at concrete in-range and out-of-range
indices. -/
theorem c5_witness :
    (∃ p, bomC5.pointer 0 = some p) ∧ bomC5.pointer 7 = none :=
  ⟨(c5_bounds_checked_lookup bomC5 0).1 (by decide),
   (c5_bounds_checked_lookup bomC5 7).2 (by decide)⟩

/-- C6.  A non-leaf node with a nonzero count (malformed internal node) is
not descended into: the node contributes nothing to the accumulator, and the
traversal proceeds directly to its forward sibling chain (warning is a log
side channel); a zero forward link then simply returns the accumulator
unchanged. -/
theorem c6_malformed_internal_node {R : Type} (bom : Bom) (f : R → Bytes → Bytes → R)
    (fuel idx : Nat) (init : R) (ptr : Pointer) (entry : TreeEntry)
    (hp : bom.pointer idx = some ptr)
    (he : parseTreeEntry bom.buffer ptr.address = some entry)
    (hleaf : entry.is_leaf = 0) (hcnt : entry.count ≠ 0) :
    bom.reduce_tree f (fuel + 1) idx init
      = if entry.forward ≠ 0 then bom.reduce_tree f fuel entry.forward init
        else .ok init := by
  unfold Bom.pointer at hp
  simp only [Bom.reduce_tree, reduceTreeCore, hp, he, hleaf]
  rw [if_neg (lt_irrefl 0), if_neg hcnt]
  simp only [resBind_ok]

/-- Witness for C6 on a concrete malformed internal node (count 5) with a
valid forward sibling: the node is skipped, the sibling chain is walked, and
the final accumulator is unchanged. -/
theorem c6_witness :
    bomC6.reduce_tree (fun (n : Nat) _ _ => n + 1) 2 0 0
      = (if (2 : Nat) ≠ 0 then bomC6.reduce_tree (fun (n : Nat) _ _ => n + 1) 1 2 0
         else .ok 0)
    ∧ bomC6.reduce_tree (fun (n : Nat) _ _ => n + 1) 2 0 0 = .ok 0 :=
  ⟨c6_malformed_internal_node bomC6 (fun n _ _ => n + 1) 1 0 0 ⟨0, 12⟩ ⟨0, 5, 2, 0⟩
     (by decide) (by decide) (by decide) (by decide),
   by decide⟩

/-- C7.  `map_tree` — defined, as in the code, as the fold from the empty
sequence with a push of the mapping function — produces exactly the mapped
linearized pair sequence, in traversal order, and its length equals the
number of combine invocations the counting fold performs on the same
input. -/
theorem c7_map_tree_is_mapped_fold {V : Type} (bom : Bom) (m : Bytes → Bytes → V)
    (fuel idx : Nat) :
    bom.map_tree m fuel idx
      = resMap (List.map (fun p => m p.1 p.2)) (collectTree bom.pointers bom.buffer fuel idx)
    ∧ resMap List.length (bom.map_tree m fuel idx)
      = bom.reduce_tree (fun (n : Nat) _ _ => n + 1) fuel idx 0 := by
  have h1 := reduceTree_eq_collectTree bom.pointers bom.buffer
    (fun acc key value => acc ++ [m key value]) fuel idx []
  have h2 := reduceTree_eq_collectTree bom.pointers bom.buffer
    (fun (n : Nat) _ _ => n + 1) fuel idx 0
  constructor
  · rw [Bom.map_tree, Bom.reduce_tree, h1]
    cases collectTree bom.pointers bom.buffer fuel idx with
    | error e => rfl
    | ok l => simp [foldl_push_eq_map (fun p => m p.1 p.2) l]
  · rw [Bom.map_tree, Bom.reduce_tree, h1, Bom.reduce_tree, h2]
    cases collectTree bom.pointers bom.buffer fuel idx with
    | error e => rfl
    | ok l =>
      simp [foldl_push_eq_map (fun p => m p.1 p.2) l, foldl_count_eq_length]

/-- C8.  The variable-directory decoder equals its specification: read a u32
count, decode exactly `count` entries sequentially — each a u32 block index,
a u8 name length and that many name bytes, each entry's position advancing
by the cumulative `5 + name_length` of the preceding entries — then build
the name-to-index map by inserting in order, so on duplicate names the last
entry wins, without failing. -/
theorem c8_parse_vars_spec :
    (∀ bytes, parse_vars bytes = specParseVars bytes)
    ∧ (∀ (bytes : Bytes) (c p : Nat) (l : List Var),
        decodeVarsSeq bytes c p = some l → l.length = c)
    ∧ (∀ (m : VarMap) (k : Bytes) (v : Nat), lookupVar (insertVar m k v) k = some v) := by
  refine ⟨?_, fun bytes => decodeVarsSeq_length bytes, lookup_insert⟩
  intro bytes
  unfold parse_vars specParseVars
  cases h : parseU32At bytes 0 with
  | none => rfl
  | some c => exact parseVarsLoop_eq bytes c 0 []

set_option maxRecDepth 40000 in
/-- Witness for C8 on a concrete two-entry directory with a duplicate name:
the decode yields both entries and the map holds the later index. -/
theorem c8_witness :
    parse_vars bytesC8 = specParseVars bytesC8
    ∧ (decodeVarsSeq bytesC8 2 0 = some varsListC8 ∧ varsListC8.length = 2)
    ∧ lookupVar (insertVar [([65], 5)] [65] 9) [65] = some 9 :=
  ⟨c8_parse_vars_spec.1 bytesC8,
   ⟨by decide, c8_parse_vars_spec.2.1 bytesC8 2 0 varsListC8 (by decide)⟩,
   c8_parse_vars_spec.2.2 [([65], 5)] [65] 9⟩

/-- Counterexample to C9: `cbufC9a` and `cbufC9b` are accepted by `Bom::new`
and differ only at byte 47, which lies past
`index_offset + index_length = 36`; the decoded free-block tables differ, so
free-table parsing does read past `index_offset + index_length` (the code
never consults `index_length`). -/
theorem c9_counterexample :
    (Bom.new cbufC9a).map (fun b => b.free_pointers) = some [⟨7, 1⟩]
    ∧ (Bom.new cbufC9b).map (fun b => b.free_pointers) = some [⟨7, 2⟩]
    ∧ cbufC9a.take 47 = cbufC9b.take 47
    ∧ cbufC9a.drop 48 = cbufC9b.drop 48
    ∧ cbufC9a.length = 52 ∧ cbufC9b.length = 52
    ∧ (Bom.new cbufC9a).map (fun b => b.header.index_offset + b.header.index_length)
        = some 36
    ∧ 36 ≤ 47 := by
  decide

/-- C9 as amended: the free-block table is decoded by the same decoder as
the main table, at `index_offset + 4 + count*8` immediately after it, and
the traversal result is independent of the free-pointer table (and of the
variable map); its parsing is bounds-checked against the buffer end only —
it may read past `index_offset + index_length`, which the code never
consults. -/
theorem c9_free_table (buffer : Bytes) (bom : Bom) (h : Bom.new buffer = some bom) :
    parse_pointers (buffer.drop (bom.header.index_offset + 4 + bom.pointers.length * 8))
        = some bom.free_pointers
    ∧ (∀ {R : Type} (f : R → Bytes → Bytes → R) (fuel idx : Nat) (init : R)
        (fp : List Pointer) (vm : VarMap),
        Bom.reduce_tree ⟨bom.buffer, bom.header, bom.pointers, fp, vm⟩ f fuel idx init
          = bom.reduce_tree f fuel idx init) := by
  unfold Bom.new at h
  cases hh : parseHeader buffer with
  | none => simp only [hh] at h; exact Option.noConfusion h
  | some header =>
    simp only [hh] at h
    by_cases h1 : header.index_offset ≤ buffer.length
    · rw [if_pos h1] at h
      cases hp : parse_pointers (buffer.drop header.index_offset) with
      | none => simp only [hp] at h; exact Option.noConfusion h
      | some pointers =>
        simp only [hp] at h
        by_cases h2 : header.index_offset + 4 + pointers.length * 8 ≤ buffer.length
        · rw [if_pos h2] at h
          cases hf : parse_pointers
              (buffer.drop (header.index_offset + 4 + pointers.length * 8)) with
          | none => simp only [hf] at h; exact Option.noConfusion h
          | some fps =>
            simp only [hf] at h
            by_cases h3 : header.vars_offset ≤ buffer.length
            · rw [if_pos h3] at h
              cases hv : parse_vars (buffer.drop header.vars_offset) with
              | none => simp only [hv] at h; exact Option.noConfusion h
              | some vs =>
                simp only [hv] at h
                have hb : bom = ⟨buffer, header, pointers, fps, vs⟩ :=
                  (Option.some.inj h).symm
                subst hb
                exact ⟨hf, fun f fuel idx init fp vm => rfl⟩
            · rw [if_neg h3] at h; exact Option.noConfusion h
        · rw [if_neg h2] at h; exact Option.noConfusion h
    · rw [if_neg h1] at h
      exact Option.noConfusion h

/-- Buffers agreeing pointwise on a range have equal slices there. -/
lemma slice_congr (b1 b2 : Bytes) (off n : Nat)
    (hag : ∀ j, j < n → b1.get? (off + j) = b2.get? (off + j)) :
    (b2.drop off).take n = (b1.drop off).take n := by
  apply List.ext_get?
  intro j
  rcases Nat.lt_or_ge j n with hj | hj
  · simp only [List.get?_eq_getElem?, List.getElem?_take, if_pos hj, List.getElem?_drop]
    have h := hag j hj
    simp only [List.get?_eq_getElem?] at h
    exact h.symm
  · simp only [List.get?_eq_getElem?, List.getElem?_take, if_neg (Nat.not_lt.2 hj)]

/-- Buffers of equal length agreeing pointwise on a range have equal
bounds-checked reads there. -/
lemma readBytes_congr (b1 b2 : Bytes) (off n : Nat) (hlen : b1.length = b2.length)
    (hag : ∀ j, j < n → b1.get? (off + j) = b2.get? (off + j)) :
    readBytes b2 off n = readBytes b1 off n := by
  unfold readBytes
  rw [← hlen]
  by_cases hc : off + n ≤ b1.length
  · rw [if_pos hc, if_pos hc, slice_congr b1 b2 off n hag]
  · rw [if_neg hc, if_neg hc]

/-- Buffers of equal length agreeing on the four bytes of a u32 read give
the same parse result. -/
lemma parseU32At_congr (b1 b2 : Bytes) (off : Nat) (hlen : b1.length = b2.length)
    (hag : ∀ j, j < 4 → b1.get? (off + j) = b2.get? (off + j)) :
    parseU32At b2 off = parseU32At b1 off := by
  unfold parseU32At
  rw [readBytes_congr b1 b2 off 4 hlen hag]

/-- Restricting a pointwise agreement to a subrange at a positive offset. -/
lemma agree_shift {b1 b2 : Bytes} {off n : Nat}
    (hag : ∀ j, j < n → b1.get? (off + j) = b2.get? (off + j)) (d m : Nat)
    (hdm : d + m ≤ n) :
    ∀ j, j < m → b1.get? (off + d + j) = b2.get? (off + d + j) := by
  intro j hj
  have h := hag (d + j) (by omega)
  rw [show off + d + j = off + (d + j) by omega]
  exact h

/-- Node headers parse compatibly in buffers of equal length that agree on
the first 8 header bytes: failure is simultaneous, and a successful parse
yields the same is_leaf, count and forward fields (the backward field, read
from bytes 8..12, may differ). -/
lemma parseTreeEntry_congr (b1 b2 : Bytes) (off : Nat) (hlen : b1.length = b2.length)
    (hag : ∀ j, j < 8 → b1.get? (off + j) = b2.get? (off + j)) :
    ∀ e1, parseTreeEntry b1 off = some e1 →
      ∃ e2, parseTreeEntry b2 off = some e2
        ∧ e2.is_leaf = e1.is_leaf ∧ e2.count = e1.count ∧ e2.forward = e1.forward := by
  intro e1 h
  unfold parseTreeEntry at h ⊢
  by_cases hc : off + 12 ≤ b1.length
  · rw [if_pos hc] at h
    rw [if_pos (hlen ▸ hc)]
    cases h
    refine ⟨_, rfl, ?_, ?_, ?_⟩
    · exact congrArg beVal (slice_congr b1 b2 off 2 (fun j hj => hag j (by omega)))
    · exact congrArg beVal (slice_congr b1 b2 (off + 2) 2 (agree_shift hag 2 2 (by omega)))
    · exact congrArg beVal (slice_congr b1 b2 (off + 4) 4 (agree_shift hag 4 4 (by omega)))
  · rw [if_neg hc] at h
    exact Option.noConfusion h

/-- Agreement on a region list is inherited by any sublist (by
membership). -/
lemma agreeOn_of_sub {b1 b2 : Bytes} {rs rs' : List (Nat × Nat)}
    (hsub : ∀ x ∈ rs', x ∈ rs) (h : agreeOn b1 b2 rs) : agreeOn b1 b2 rs' :=
  fun x hx => h x (hsub x hx)

/-- Frame property of the leaf loop: two equal-length buffers that agree on
the pair-index words and on every key/value span the loop dereferences (the
regions collected by `leafReads`) drive the loop to the same result. -/
lemma leafFold_frame {R : Type} (ptrs : List Pointer) (b1 b2 : Bytes)
    (f : R → Bytes → Bytes → R) (hlen : b1.length = b2.length) :
    ∀ (n off : Nat) (rs : List (Nat × Nat)) (acc : R),
      leafReads ptrs b1 off n = .ok rs →
      (∀ j, j < 8 * n → b1.get? (off + j) = b2.get? (off + j)) →
      agreeOn b1 b2 rs →
      leafFold ptrs b2 f off n acc = leafFold ptrs b1 f off n acc := by
  intro n
  induction n with
  | zero => intro off rs acc hr hw hag; rfl
  | succ n ih =>
    intro off rs acc hr hw hag
    have hu1 : parseU32At b2 off = parseU32At b1 off :=
      parseU32At_congr b1 b2 off hlen (fun j hj => hw j (by omega))
    have hu2 : parseU32At b2 (off + 4) = parseU32At b1 (off + 4) :=
      parseU32At_congr b1 b2 (off + 4) hlen (agree_shift hw 4 4 (by omega))
    have hw' : ∀ j, j < 8 * n → b1.get? (off + 8 + j) = b2.get? (off + 8 + j) :=
      agree_shift hw 8 (8 * n) (by omega)
    cases h1 : parseU32At b1 off with
    | none =>
      cases h2 : parseU32At b1 (off + 4) with
      | none => simp only [leafReads, h1, h2] at hr; exact Except.noConfusion hr
      | some key_index => simp only [leafReads, h1, h2] at hr; exact Except.noConfusion hr
    | some value_index =>
      cases h2 : parseU32At b1 (off + 4) with
      | none => simp only [leafReads, h1, h2] at hr; exact Except.noConfusion hr
      | some key_index =>
        cases hk : ptrs.get? key_index with
        | none =>
          cases hv : ptrs.get? value_index with
          | none =>
            simp only [leafReads, h1, h2, hk, hv] at hr
            simp only [leafFold, hu1, hu2, h1, h2, hk, hv]
            exact ih (off + 8) rs acc hr hw' hag
          | some vp =>
            simp only [leafReads, h1, h2, hk, hv] at hr
            simp only [leafFold, hu1, hu2, h1, h2, hk, hv]
            exact ih (off + 8) rs acc hr hw' hag
        | some kp =>
          cases hv : ptrs.get? value_index with
          | none =>
            simp only [leafReads, h1, h2, hk, hv] at hr
            simp only [leafFold, hu1, hu2, h1, h2, hk, hv]
            exact ih (off + 8) rs acc hr hw' hag
          | some vp =>
            by_cases hl : 0 < kp.length ∧ 0 < vp.length
            · cases hkb : readBytes b1 kp.address kp.length with
              | none =>
                cases hvb : readBytes b1 vp.address vp.length with
                | none =>
                  simp only [leafReads, h1, h2, hk, hv, if_pos hl, hkb, hvb] at hr
                  exact Except.noConfusion hr
                | some vb =>
                  simp only [leafReads, h1, h2, hk, hv, if_pos hl, hkb, hvb] at hr
                  exact Except.noConfusion hr
              | some kb =>
                cases hvb : readBytes b1 vp.address vp.length with
                | none =>
                  simp only [leafReads, h1, h2, hk, hv, if_pos hl, hkb, hvb] at hr
                  exact Except.noConfusion hr
                | some vb =>
                  cases hrec : leafReads ptrs b1 (off + 8) n with
                  | error e =>
                    simp only [leafReads, h1, h2, hk, hv, if_pos hl, hkb, hvb, hrec,
                      resBind_error] at hr
                    exact Except.noConfusion hr
                  | ok rs' =>
                    simp only [leafReads, h1, h2, hk, hv, if_pos hl, hkb, hvb, hrec,
                      resBind_ok] at hr
                    cases hr
                    have hkagree := hag (kp.address, kp.length) (List.mem_cons_self _ _)
                    have hvagree := hag (vp.address, vp.length)
                      (List.mem_cons_of_mem _ (List.mem_cons_self _ _))
                    have hkb2 : readBytes b2 kp.address kp.length = some kb := by
                      rw [readBytes_congr b1 b2 kp.address kp.length hlen hkagree, hkb]
                    have hvb2 : readBytes b2 vp.address vp.length = some vb := by
                      rw [readBytes_congr b1 b2 vp.address vp.length hlen hvagree, hvb]
                    simp only [leafFold, hu1, hu2, h1, h2, hk, hv, if_pos hl, hkb, hvb,
                      hkb2, hvb2]
                    exact ih (off + 8) rs' (f acc kb vb) hrec hw'
                      (agreeOn_of_sub
                        (fun x hx =>
                          List.mem_cons_of_mem _ (List.mem_cons_of_mem _ hx)) hag)
            · simp only [leafReads, h1, h2, hk, hv, if_neg hl] at hr
              simp only [leafFold, hu1, hu2, h1, h2, hk, hv, if_neg hl]
              exact ih (off + 8) rs acc hr hw' hag

/-- Frame property of the traversal: two equal-length buffers that agree on
every byte region `treeReads` collects — which for each visited node covers
only the first 8 bytes of its header, never the backward field — drive the
traversal to the same result from any root index, initial value and combine
function. -/
lemma reduceTree_frame {R : Type} (ptrs : List Pointer) (b1 b2 : Bytes)
    (f : R → Bytes → Bytes → R) (hlen : b1.length = b2.length) :
    ∀ (fuel idx : Nat) (rs : List (Nat × Nat)) (init : R),
      treeReads ptrs b1 fuel idx = .ok rs →
      agreeOn b1 b2 rs →
      reduceTreeCore ptrs b2 f fuel idx init = reduceTreeCore ptrs b1 f fuel idx init := by
  intro fuel
  induction fuel with
  | zero => intro idx rs init hr hag; rfl
  | succ fuel ih =>
    intro idx rs init hr hag
    cases hp : ptrs.get? idx with
    | none => simp only [treeReads, hp] at hr; exact Except.noConfusion hr
    | some ptr =>
      cases he1 : parseTreeEntry b1 ptr.address with
      | none => simp only [treeReads, hp, he1] at hr; exact Except.noConfusion hr
      | some e1 =>
        by_cases hleaf : 0 < e1.is_leaf
        · cases hlr : leafReads ptrs b1 (ptr.address + 12) e1.count with
          | error e =>
            simp only [treeReads, hp, he1, if_pos hleaf, hlr, resBind_error] at hr
            exact Except.noConfusion hr
          | ok lrs =>
            by_cases hfw : e1.forward ≠ 0
            · cases hsr : treeReads ptrs b1 fuel e1.forward with
              | error e =>
                simp only [treeReads, hp, he1, if_pos hleaf, hlr, resBind_ok, if_pos hfw,
                  hsr, resBind_error] at hr
                exact Except.noConfusion hr
              | ok srs =>
                simp only [treeReads, hp, he1, if_pos hleaf, hlr, resBind_ok, if_pos hfw,
                  hsr] at hr
                cases hr
                have hag8 := hag (ptr.address, 8) (List.mem_cons_self _ _)
                obtain ⟨e2, he2, hfl, hfc, hff⟩ :=
                  parseTreeEntry_congr b1 b2 ptr.address hlen hag8 e1 he1
                have hagrest := agreeOn_of_sub
                  (fun x hx => List.mem_cons_of_mem _ hx) hag
                have hpw := hagrest (ptr.address + 12, 8 * e1.count)
                  (List.mem_append_left _ (List.mem_cons_self _ _))
                have haglrs : agreeOn b1 b2 lrs := agreeOn_of_sub
                  (fun x hx => List.mem_append_left _ (List.mem_cons_of_mem _ hx)) hagrest
                have hagsrs : agreeOn b1 b2 srs := agreeOn_of_sub
                  (fun x hx => List.mem_append_right _ hx) hagrest
                have hown := leafFold_frame ptrs b1 b2 f hlen e1.count (ptr.address + 12)
                  lrs init hlr hpw haglrs
                simp only [reduceTreeCore, hp, he1, he2, hfl, hfc, hff, if_pos hleaf, hown]
                cases leafFold ptrs b1 f (ptr.address + 12) e1.count init with
                | error e => rfl
                | ok cur =>
                  simp only [resBind_ok, if_pos hfw]
                  exact ih e1.forward srs cur hsr hagsrs
            · simp only [treeReads, hp, he1, if_pos hleaf, hlr, resBind_ok,
                if_neg hfw] at hr
              cases hr
              have hag8 := hag (ptr.address, 8) (List.mem_cons_self _ _)
              obtain ⟨e2, he2, hfl, hfc, hff⟩ :=
                parseTreeEntry_congr b1 b2 ptr.address hlen hag8 e1 he1
              have hagrest := agreeOn_of_sub
                (fun x hx => List.mem_cons_of_mem _ hx) hag
              have hpw := hagrest (ptr.address + 12, 8 * e1.count)
                (List.mem_append_left _ (List.mem_cons_self _ _))
              have haglrs : agreeOn b1 b2 lrs := agreeOn_of_sub
                (fun x hx => List.mem_append_left _ (List.mem_cons_of_mem _ hx)) hagrest
              have hown := leafFold_frame ptrs b1 b2 f hlen e1.count (ptr.address + 12)
                lrs init hlr hpw haglrs
              simp only [reduceTreeCore, hp, he1, he2, hfl, hfc, hff, if_pos hleaf, hown]
              cases leafFold ptrs b1 f (ptr.address + 12) e1.count init with
              | error e => rfl
              | ok cur => simp only [resBind_ok, if_neg hfw]
        · by_cases hcnt : e1.count = 0
          · cases hcw : parseU32At b1 (ptr.address + ptr.length) with
            | none =>
              simp only [treeReads, hp, he1, if_neg hleaf, if_pos hcnt, hcw] at hr
              exact Except.noConfusion hr
            | some child =>
              cases hcr : treeReads ptrs b1 fuel child with
              | error e =>
                simp only [treeReads, hp, he1, if_neg hleaf, if_pos hcnt, hcw, hcr,
                  resBind_error] at hr
                exact Except.noConfusion hr
              | ok crs =>
                by_cases hfw : e1.forward ≠ 0
                · cases hsr : treeReads ptrs b1 fuel e1.forward with
                  | error e =>
                    simp only [treeReads, hp, he1, if_neg hleaf, if_pos hcnt, hcw, hcr,
                      resBind_ok, if_pos hfw, hsr, resBind_error] at hr
                    exact Except.noConfusion hr
                  | ok srs =>
                    simp only [treeReads, hp, he1, if_neg hleaf, if_pos hcnt, hcw, hcr,
                      resBind_ok, if_pos hfw, hsr] at hr
                    cases hr
                    have hag8 := hag (ptr.address, 8) (List.mem_cons_self _ _)
                    obtain ⟨e2, he2, hfl, hfc, hff⟩ :=
                      parseTreeEntry_congr b1 b2 ptr.address hlen hag8 e1 he1
                    have hagrest := agreeOn_of_sub
                      (fun x hx => List.mem_cons_of_mem _ hx) hag
                    have hcwreg := hagrest (ptr.address + ptr.length, 4)
                      (List.mem_append_left _ (List.mem_cons_self _ _))
                    have hcw2 : parseU32At b2 (ptr.address + ptr.length) = some child := by
                      rw [parseU32At_congr b1 b2 (ptr.address + ptr.length) hlen hcwreg, hcw]
                    have hagcrs : agreeOn b1 b2 crs := agreeOn_of_sub
                      (fun x hx =>
                        List.mem_append_left _ (List.mem_cons_of_mem _ hx)) hagrest
                    have hagsrs : agreeOn b1 b2 srs := agreeOn_of_sub
                      (fun x hx => List.mem_append_right _ hx) hagrest
                    have hchild := ih child crs init hcr hagcrs
                    simp only [reduceTreeCore, hp, he1, he2, hfl, hfc, hff, if_neg hleaf,
                      if_pos hcnt, hcw, hcw2, hchild]
                    cases reduceTreeCore ptrs b1 f fuel child init with
                    | error e => rfl
                    | ok cur =>
                      simp only [resBind_ok, if_pos hfw]
                      exact ih e1.forward srs cur hsr hagsrs
                · simp only [treeReads, hp, he1, if_neg hleaf, if_pos hcnt, hcw, hcr,
                    resBind_ok, if_neg hfw] at hr
                  cases hr
                  have hag8 := hag (ptr.address, 8) (List.mem_cons_self _ _)
                  obtain ⟨e2, he2, hfl, hfc, hff⟩ :=
                    parseTreeEntry_congr b1 b2 ptr.address hlen hag8 e1 he1
                  have hagrest := agreeOn_of_sub
                    (fun x hx => List.mem_cons_of_mem _ hx) hag
                  have hcwreg := hagrest (ptr.address + ptr.length, 4)
                    (List.mem_append_left _ (List.mem_cons_self _ _))
                  have hcw2 : parseU32At b2 (ptr.address + ptr.length) = some child := by
                    rw [parseU32At_congr b1 b2 (ptr.address + ptr.length) hlen hcwreg, hcw]
                  have hagcrs : agreeOn b1 b2 crs := agreeOn_of_sub
                    (fun x hx =>
                      List.mem_append_left _ (List.mem_cons_of_mem _ hx)) hagrest
                  have hchild := ih child crs init hcr hagcrs
                  simp only [reduceTreeCore, hp, he1, he2, hfl, hfc, hff, if_neg hleaf,
                    if_pos hcnt, hcw, hcw2, hchild]
                  cases reduceTreeCore ptrs b1 f fuel child init with
                  | error e => rfl
                  | ok cur => simp only [resBind_ok, if_neg hfw]
          · by_cases hfw : e1.forward ≠ 0
            · cases hsr : treeReads ptrs b1 fuel e1.forward with
              | error e =>
                simp only [treeReads, hp, he1, if_neg hleaf, if_neg hcnt, resBind_ok,
                  if_pos hfw, hsr, resBind_error] at hr
                exact Except.noConfusion hr
              | ok srs =>
                simp only [treeReads, hp, he1, if_neg hleaf, if_neg hcnt, resBind_ok,
                  if_pos hfw, hsr] at hr
                cases hr
                have hag8 := hag (ptr.address, 8) (List.mem_cons_self _ _)
                obtain ⟨e2, he2, hfl, hfc, hff⟩ :=
                  parseTreeEntry_congr b1 b2 ptr.address hlen hag8 e1 he1
                have hagrest := agreeOn_of_sub
                  (fun x hx => List.mem_cons_of_mem _ hx) hag
                have hagsrs : agreeOn b1 b2 srs := agreeOn_of_sub
                  (fun x hx => List.mem_append_right _ hx) hagrest
                simp only [reduceTreeCore, hp, he1, he2, hfl, hfc, hff, if_neg hleaf,
                  if_neg hcnt, resBind_ok, if_pos hfw]
                exact ih e1.forward srs init hsr hagsrs
            · simp only [treeReads, hp, he1, if_neg hleaf, if_neg hcnt, resBind_ok,
                if_neg hfw] at hr
              cases hr
              have hag8 := hag (ptr.address, 8) (List.mem_cons_self _ _)
              obtain ⟨e2, he2, hfl, hfc, hff⟩ :=
                parseTreeEntry_congr b1 b2 ptr.address hlen hag8 e1 he1
              simp only [reduceTreeCore, hp, he1, he2, hfl, hfc, hff, if_neg hleaf,
                if_neg hcnt, resBind_ok, if_neg hfw]

/-- Witness for the amended C9 on a concrete file. -/
theorem c9_witness :
    parse_pointers (cbufC9a.drop (bomC9a.header.index_offset + 4 + bomC9a.pointers.length * 8))
        = some bomC9a.free_pointers
    ∧ Bom.reduce_tree ⟨bomC9a.buffer, bomC9a.header, bomC9a.pointers, [⟨0, 0⟩], [([66], 1)]⟩
        (fun (n : Nat) _ _ => n + 1) 1 0 0
        = bomC9a.reduce_tree (fun (n : Nat) _ _ => n + 1) 1 0 0 :=
  ⟨(c9_free_table cbufC9a bomC9a (by decide)).1,
   (c9_free_table cbufC9a bomC9a (by decide)).2 (fun n _ _ => n + 1) 1 0 0 [⟨0, 0⟩] [([66], 1)]⟩

/-- Counterexample to C10: `buf1C10` and `buf2C10` have equal length and
differ only in bytes 8..11 — the backward field of the tree node record at
block 0 — yet traversal from root 0 with the same combine function and
initial value yields different results: block 0 has length 8, so the child
word the traversal reads at `address + length = 8` aliases the backward
field, making the result depend on those bytes. -/
theorem c10_counterexample :
    buf1C10.length = buf2C10.length
    ∧ buf1C10.take 8 = buf2C10.take 8
    ∧ buf1C10.drop 12 = buf2C10.drop 12
    ∧ parseTreeEntry buf1C10 0 = some ⟨0, 0, 0, 1⟩
    ∧ parseTreeEntry buf2C10 0 = some ⟨0, 0, 0, 2⟩
    ∧ bomC10a.reduce_tree (fun (n : Nat) _ _ => n + 1) 3 0 0 = .ok 1
    ∧ bomC10b.reduce_tree (fun (n : Nat) _ _ => n + 1) 3 0 0 = .ok 0 := by
  decide

/-- C10 as amended: the traversal never uses the parsed backward value — for
each visited node it reads only the first 8 header bytes (is_leaf, count,
forward), the leaf pair words, the child word of an internal node and the
key/value spans, as collected by `treeReads`.  Hence any two equal-length
buffers agreeing on that read footprint — in particular two buffers that
differ only in backward-field bytes not aliased by any of those regions —
yield identical traversal results. -/
theorem c10_backward_not_read {R : Type} (ptrs : List Pointer) (b1 b2 : Bytes)
    (f : R → Bytes → Bytes → R) (fuel idx : Nat) (init : R) (rs : List (Nat × Nat))
    (hlen : b1.length = b2.length)
    (hreads : treeReads ptrs b1 fuel idx = .ok rs)
    (hag : agreeOn b1 b2 rs) :
    reduceTreeCore ptrs b2 f fuel idx init = reduceTreeCore ptrs b1 f fuel idx init :=
  reduceTree_frame ptrs b1 b2 f hlen fuel idx rs init hreads hag

/-- Witness for the amended C10 on a concrete leaf whose backward bytes are
changed without being aliased by any read region. -/
theorem c10_witness :
    reduceTreeCore ptrsW10 bufW10b (fun (n : Nat) _ _ => n + 1) 1 0 0
      = reduceTreeCore ptrsW10 bufW10a (fun (n : Nat) _ _ => n + 1) 1 0 0 :=
  c10_backward_not_read ptrsW10 bufW10a bufW10b (fun n _ _ => n + 1) 1 0 0
    [(0, 8), (12, 0)] (by decide) (by decide) (by decide)

end Rbom
